import Mathlib

/-!
Verification development for `techo.py` ("Teto's echo"), a terminal
utility that prints a fixed pixel-art face next to a user-supplied
message.  The Python source is shallowly embedded below: Python strings
become `List Char`, the global tables (`palette`, `img`) are copied
verbatim, integer arithmetic (`int(...)` truncation) becomes `Nat` /
`Int` arithmetic with `Int.tdiv` where truncation toward zero matters,
and the stateful scan loops become structurally recursive functions.
-/

namespace Techo

/-! ## Palette and face data (techo.py lines 91-306) -/

/-- The color palette, copied verbatim from `techo.py` (lines 91-105).
Each entry is a 6-hex-digit RGB triple. -/
def palette : List String :=
  ["2d272a",
   "ff0026",
   "cc001e",
   "b3001a",
   "ee0e46",
   "f6cdcb",
   "f79ca1",
   "925b6e",
   "76445f"]

/-- Value of one hexadecimal digit, as `int(c, 16)` accepts it
(the palette only contains `0-9a-f`; other chars give 0 here). -/
def hexDigitVal (c : Char) : Nat :=
  if '0' ≤ c ∧ c ≤ '9' then c.toNat - 48
  else if 'a' ≤ c ∧ c ≤ 'f' then c.toNat - 87
  else if 'A' ≤ c ∧ c ≤ 'F' then c.toNat - 55
  else 0

/-- `int(hex[i:i+2], 16)` on a 6-hex-digit string. -/
def hexByte (s : String) (i : Nat) : Nat :=
  16 * hexDigitVal (s.data.getD i '0') + hexDigitVal (s.data.getD (i + 1) '0')

/-- `hexToRGB` from `techo.py` (lines 308-309):
`int(hex[0:2],16), int(hex[2:4],16), int(hex[4:6],16)`. -/
def hexToRGB (hex : String) : Nat × Nat × Nat :=
  (hexByte hex 0, hexByte hex 2, hexByte hex 4)

/-- The six face bitmaps, copied verbatim from `techo.py` (lines 115-306).
Symbol `.` is background, digits index into `palette`. -/
def img : List (List String) :=
  [[
  "...........112...........",
  "..........12.............",
  "..........2..............",
  "...........2.............",
  "..........12.11113...13..",
  ".....12..1111121113.11133",
  "...1112..12111121113.1113",
  "..112.2.11111121111111113",
  "..12.2.111111111111211113",
  "....111111111111111211113",
  "..12.31112111121111111213",
  "..12.32112211122111122123",
  "..112.3112122112211121213",
  "...12.3121161212211112123",
  "...112.322661166621111213",
  "....12.35540516406213.3..",
  "....1121155555555613..13.",
  ".....12.15555655663..123.",
  ".....11..155555556...113.",
  "......11...500056.....3..",
  "............5556......3..",
  ".............666.........",
  "...........776678........",
  "........57717777188......",
  ".......567717171777856...",
  "......56777718177785556..",
  ".....556777771777785556..",
  ".....55677777777785556...",
  ],
  [
  "...........112...........",
  "..........12.............",
  "..........2..............",
  "...........2.............",
  "..........12.11113...13..",
  ".....12..1111111113.11133",
  "...1112..12111121113.1113",
  "..112.2.11111121111112113",
  "..12.2.111111111111211113",
  "....111111111111111211113",
  "..12.31112111121111111213",
  "..12.32112211112111122123",
  "..112.3112621156211121213",
  "...12.3125562155611112123",
  "...112.325056150552111213",
  "....12.31050550505213.3..",
  "....1121155555555613..13.",
  ".....12.15555555661..123.",
  ".....11..150110566...113.",
  "......11...500556.....3..",
  "............5556......3..",
  ".............666.........",
  "...........776678........",
  "........57717777188......",
  ".......567717171777856...",
  "......56777718177785556..",
  ".....556777771777785556..",
  ".....55677777777785556...",
  ],
  [
  "...........112...........",
  "..........12.............",
  "..........2..............",
  "...........2.............",
  "..........12.11113...13..",
  ".....12..1111121113.11133",
  "...1112..12111121113.1113",
  "..112.2.11111121111111113",
  "..12.2.111111111111211113",
  "....111111111111111211113",
  "..12.31112111121111111213",
  "..12.32112211122111122123",
  "..112.3112122112211121213",
  "...12.3121161212211112123",
  "...112.322661166621111213",
  "....12.35540516406213.3..",
  "....1121155555555613..13.",
  ".....12.15555555663..123.",
  ".....11..150110556...113.",
  "......11...500556.....3..",
  "............5556......3..",
  ".............666.........",
  "...........776678........",
  "........57717777188......",
  ".......567717171777856...",
  "......56777718177785556..",
  ".....556777771777785556..",
  ".....55677777777785556...",
  ],
  [
  "...........112...........",
  "..........12.............",
  "..........2..............",
  "...........2.............",
  "..........12.11113...13..",
  ".....12..1111121113.11133",
  "...1112..12111121113.1113",
  "..112.2.11111121111111113",
  "..12.2.111111111111211113",
  "....111111111111111211113",
  "..12.31112111121111111213",
  "..12.32112211122111122123",
  "..112.3112122112211121213",
  "...12.3121161212211112123",
  "...112.322000160001111213",
  "....12.35504516046213.3..",
  "....1121155555555613..13.",
  ".....12.15555655663..123.",
  ".....11..155555556...113.",
  "......11...501056.....3..",
  "............5556......3..",
  ".............666.........",
  "...........776678........",
  "........57717777188......",
  ".......567717171777856...",
  "......56777718177785556..",
  ".....556777771777785556..",
  ".....55677777777785556...",
  ],
  [
  "...........112...........",
  "..........12.............",
  "..........2..............",
  "...........2.............",
  "..........12.11113...13..",
  ".....12..1111121113.11133",
  "...1112..12111121113.1113",
  "..112.2.11111121111111113",
  "..12.2.111111111111211113",
  "....111111111111111211113",
  "..12.31112111121111111213",
  "..12.32112211122111122123",
  "..112.3112122112211121213",
  "...12.3121011210211112123",
  "...112.320505105021111213",
  "....12.35050550506213.3..",
  "....1121150555505613..13.",
  ".....12.15555555563..123.",
  ".....11..155000556...113.",
  "......11...501056.....3..",
  "............5556......3..",
  ".............666.........",
  "...........776678........",
  "........57717777188......",
  ".......567717171777856...",
  "......56777718177785556..",
  ".....556777771777785556..",
  ".....55677777777785556...",
  ],
  [
  "...........112...........",
  "..........12.............",
  "..........2..............",
  "...........2.............",
  "..........12.11113...13..",
  ".....12..1111121113.11133",
  "...1112..12111121113.1113",
  "..112.2.11111121111111113",
  "..12.2.111111111111211113",
  "....111111111111111211113",
  "..12.31112111121111111213",
  "..12.32112211122111122123",
  "..112.3112122112211121213",
  "...12.3121111212211112123",
  "...112.320001100021111213",
  "....12.35545555456213.3..",
  "....1121100055000613..13.",
  ".....12.15655655663..123.",
  ".....11..155555556...113.",
  "......11...501056.....3..",
  "............5556......3..",
  ".............666.........",
  "...........776678........",
  "........57717777188......",
  ".......567717171777856...",
  "......56777718177785556..",
  ".....556777771777785556..",
  ".....55677777777785556...",
  ]]

/-- The rows of face `i`, as lists of characters (the Python code indexes
face rows as strings; we work on `List Char`). -/
def faceRows (i : Nat) : List (List Char) :=
  (img.getD i []).map String.data

/-! ## Sanitizer (techo.py lines 361-365)

`msg = msg.replace('\t', ' ').rstrip('\n')`, then for every element of
`msg.splitlines()` append `re.sub(r'[\x00-\x1F\x7F]', '', s) + '\n'`.
-/

/-- The characters Python `str.splitlines` treats as line boundaries:
LF, VT, FF, CR, FS, GS, RS, NEL, LINE SEPARATOR, PARAGRAPH SEPARATOR. -/
def isPyLineBreak (c : Char) : Bool :=
  c.toNat = 0x0A || c.toNat = 0x0B || c.toNat = 0x0C || c.toNat = 0x0D ||
  c.toNat = 0x1C || c.toNat = 0x1D || c.toNat = 0x1E || c.toNat = 0x85 ||
  c.toNat = 0x2028 || c.toNat = 0x2029

/-- Worker for Python `str.splitlines`: `acc` holds the current line in
reverse.  A line terminator always emits the accumulated line (CRLF counts
as a single terminator); a final unterminated line is emitted only if
nonempty. -/
def pySplitlinesAux : List Char → List Char → List (List Char)
  | [], acc => if acc.isEmpty then [] else [acc.reverse]
  | '\r' :: '\n' :: cs, acc => acc.reverse :: pySplitlinesAux cs []
  | '\r' :: cs, acc => acc.reverse :: pySplitlinesAux cs []
  | c :: cs, acc =>
    if isPyLineBreak c then acc.reverse :: pySplitlinesAux cs []
    else pySplitlinesAux cs (c :: acc)

/-- Python `str.splitlines` (keepends=False). -/
def pySplitlines (l : List Char) : List (List Char) :=
  pySplitlinesAux l []

/-- Python `str.rstrip('\n')`: remove trailing newline characters. -/
def rstripNl (l : List Char) : List Char :=
  (l.reverse.dropWhile (fun c => c = '\n')).reverse

/-- Python `str.replace('\t', ' ')`. -/
def replaceTab (l : List Char) : List Char :=
  l.map (fun c => if c = '\t' then ' ' else c)

/-- `re.sub(r'[\x00-\x1F\x7F]', '', s)`: delete C0 controls and DEL. -/
def stripCtrl (l : List Char) : List Char :=
  l.filter (fun c => !(c.toNat ≤ 0x1F || c.toNat = 0x7F))

/-- The whole sanitization step of techo.py lines 361-365: tab → space,
strip trailing newlines, split into lines, delete C0/DEL per line, and
re-join appending a newline after every line. -/
def msgSanitize (l : List Char) : List Char :=
  ((pySplitlines (rstripNl (replaceTab l))).map
    (fun s => stripCtrl s ++ ['\n'])).flatten

/-- `lineNum` (techo.py lines 371-372): count of newlines, minimum 1. -/
def lineNumOf (msg : List Char) : Nat :=
  max (msg.count '\n') 1

/-- Proof helper: splitting on LF only — what `pySplitlines` computes on
text whose only line-break character is LF. -/
def splitNlAux : List Char → List Char → List (List Char)
  | [], acc => if acc.isEmpty then [] else [acc.reverse]
  | c :: cs, acc =>
    if c = '\n' then acc.reverse :: splitNlAux cs []
    else splitNlAux cs (c :: acc)

/-- Proof helper: join a list of lines with single LF separators (no
trailing separator). -/
def joinNl : List (List Char) → List Char
  | [] => []
  | [q] => q
  | q :: qs => q ++ '\n' :: joinNl qs

/-! ## East-Asian width and `countChar` (techo.py lines 409-415) -/

/-- The six East-Asian-width categories returned by
`unicodedata.east_asian_width`. -/
inductive EAW where
  | F | H | W | Na | A | N
deriving DecidableEq

/-- Models Python `unicodedata.east_asian_width` (the Unicode
`EastAsianWidth.txt` property) on the principal code-point ranges:
the full ASCII range (Na for printable, N for controls), the halfwidth
forms (H), the fullwidth forms and ideographic space (F), the main CJK /
kana / hangul blocks (W), and representative ambiguous ranges (A).
Code points outside these ranges are mapped to N (neutral). -/
def east_asian_width (c : Char) : EAW :=
  let v := c.toNat
  if v < 0x80 then (if 0x20 ≤ v ∧ v ≤ 0x7E then .Na else .N)
  else if v = 0x20A9 ∨ (0xFF61 ≤ v ∧ v ≤ 0xFFDC) ∨ (0xFFE8 ≤ v ∧ v ≤ 0xFFEE) then .H
  else if (0xFF01 ≤ v ∧ v ≤ 0xFF60) ∨ (0xFFE0 ≤ v ∧ v ≤ 0xFFE6) ∨ v = 0x3000 then .F
  else if (0x1100 ≤ v ∧ v ≤ 0x115F) ∨ (0x2E80 ≤ v ∧ v ≤ 0x2FFB) ∨
          (0x3001 ≤ v ∧ v ≤ 0x303E) ∨ (0x3041 ≤ v ∧ v ≤ 0x33FF) ∨
          (0x3400 ≤ v ∧ v ≤ 0x4DBF) ∨ (0x4E00 ≤ v ∧ v ≤ 0x9FFF) ∨
          (0xA000 ≤ v ∧ v ≤ 0xA4CF) ∨ (0xAC00 ≤ v ∧ v ≤ 0xD7A3) ∨
          (0xF900 ≤ v ∧ v ≤ 0xFAFF) ∨ (0xFE30 ≤ v ∧ v ≤ 0xFE4F) ∨
          (0x1F300 ≤ v ∧ v ≤ 0x1F64F) ∨ (0x20000 ≤ v ∧ v ≤ 0x2FFFD) then .W
  else if v = 0xA1 ∨ v = 0xA4 ∨ (0xA7 ≤ v ∧ v ≤ 0xA8) ∨ v = 0xAA ∨
          (0xAD ≤ v ∧ v ≤ 0xAE) ∨ (0xB0 ≤ v ∧ v ≤ 0xB4) ∨
          (0xB6 ≤ v ∧ v ≤ 0xBA) ∨ (0xBC ≤ v ∧ v ≤ 0xBF) ∨ v = 0xD7 ∨
          v = 0xF7 ∨ (0x2018 ≤ v ∧ v ≤ 0x2019) ∨ (0x201C ≤ v ∧ v ≤ 0x201D) ∨
          v = 0x2026 ∨ (0x2460 ≤ v ∧ v ≤ 0x24FF) ∨ (0x25A0 ≤ v ∧ v ≤ 0x25FF) then .A
  else .N

/-- The test `w in 'FWA'` from `countChar` (Python substring membership on
the single-letter category names selects exactly F, W and A). -/
def isFWA (c : Char) : Bool :=
  match east_asian_width c with
  | .F | .W | .A => true
  | _ => false

/-- `countChar` (techo.py lines 409-415): display width of a string,
counting East-Asian F/W/A characters as 2 cells and everything else as 1. -/
def countChar (msg : List Char) : Nat :=
  msg.foldl (fun N c => N + if isFWA c then 2 else 1) 0

/-! ## Face row windowing (techo.py lines 378-387, reduced mode `-d`) -/

/-- `yStart` of the reduced-mode window (lines 379-385).  Computed as a
Python int (can in principle go negative, hence `Int`). -/
def faceYStart (H L : Nat) : Int :=
  if L < 6 then ((H / 2 : Nat) : Int) - 3 + 2
  else if L + 2 < H then ((H / 2 : Nat) : Int) - ((L / 2 : Nat) : Int) + 1
  else 0

/-- `yEnd` of the reduced-mode window (lines 380-386). -/
def faceYEnd (H L : Nat) : Int :=
  if L < 6 then faceYStart H L + 6
  else if L + 2 < H then faceYStart H L + L + 1
  else (H : Int)

/-- Python slice `l[a:b]` for 0 ≤ a, b (the only case the program
reaches; Python clamps out-of-range bounds, which `take`/`drop` mirror). -/
def pySlice (l : List (List Char)) (a b : Int) : List (List Char) :=
  (l.take b.toNat).drop a.toNat

/-- `img[imgSeq] = img[imgSeq][yStart:yEnd]` (line 387). -/
def windowRows (rows : List (List Char)) (L : Nat) : List (List Char) :=
  pySlice rows (faceYStart rows.length L) (faceYEnd rows.length L)

/-! ## Horizontal margin, Right alignment (techo.py lines 393-403) -/

/-- `len(img[imgSeq][0])`: length of the first visible face row. -/
def rowLen (rows : List (List Char)) : Nat :=
  (rows.headD []).length

/-- The diagnostic message printed when the screen is too narrow. -/
def narrowWarning : String := "warning: too narrow screen"

/-- The Right-alignment margin step (lines 394-403): with
`mWidth = width - len(rows[0]) * 2`, if `mWidth > 0` every row is
prefixed with `int(mWidth / 2)` background dots; otherwise the program
prints `narrowWarning` to stderr and exits with no face or message
output, modelled as `Except.error narrowWarning`. -/
def rightMargin (width : Int) (rows : List (List Char)) :
    Except String (List (List Char)) :=
  let mWidth : Int := width - (rowLen rows : Int) * 2
  if 0 < mWidth then
    .ok (rows.map (fun r => List.replicate (mWidth.toNat / 2) '.' ++ r))
  else .error narrowWarning

/-! ## Message start row, Right alignment (techo.py lines 421-435) -/

/-- Leading background run of a row: the inner
`for color in row: if color == '.': N += 2 else: break` counts this many
dots. -/
def leadingDots (r : List Char) : Nat :=
  (r.takeWhile (fun c => c = '.')).length

/-- The zig-zag row index `l = int(H/2) + int(s/2+0.5) * ((-1)**s)`
(line 426); note `int(s/2 + 0.5) = (s+1)/2` in exact arithmetic. -/
def zigzagRow (H s : Nat) : Int :=
  ((H / 2 : Nat) : Int) + (((s + 1) / 2 : Nat) : Int) * (-1) ^ s

/-- The candidate assigned at step `s`:
`msgStart = int(H/2) - int(s/2+0.5)` (line 431). -/
def scanCandAt (H s : Nat) : Int :=
  ((H / 2 : Nat) : Int) - (((s + 1) / 2 : Nat) : Int)

/-- Contribution of scan step `s`: twice the leading-dot count of the
zig-zag row visited at step `s`. -/
def rowContrib (rows : List (List Char)) (s : Nat) : Nat :=
  2 * leadingDots (rows.getD (zigzagRow rows.length s).toNat [])

/-- Running total of the scan after `k` steps. -/
def cumulDots (rows : List (List Char)) (k : Nat) : Nat :=
  ((List.range k).map (rowContrib rows)).sum

/-- The scan loop `for s in range(len(img))` of lines 425-432, written
with an explicit iteration count `k` (the fuel starts at `rows.length`,
so `s` ranges over `0..rows.length-1` exactly as in the source); `N` is
the running total.  If no step makes `outN < N`, `msgStart` keeps its
initial value 0. -/
def scanGo (rows : List (List Char)) (outN : Nat) : Nat → Nat → Nat → Int
  | 0, _, _ => 0
  | k + 1, s, N =>
    let N2 := N + rowContrib rows s
    if outN < N2 then scanCandAt rows.length s
    else scanGo rows outN k (s + 1) N2

/-- `msgStart` for Right alignment (lines 421-435): the scan candidate,
then `msgStart2 = int(H/2 - lineNum/2 + 0.5)` (which equals
`(H - L + 1)` truncated-divided by 2), clamped to ≥ 0, and the smaller
of the two. -/
def msgStartRight (rows : List (List Char)) (outN L : Nat) : Int :=
  let cand := scanGo rows outN rows.length 0 0
  let c2 := Int.tdiv ((rows.length : Int) - (L : Int) + 1) 2
  let c2c := if c2 < 0 then 0 else c2
  if cand > c2c then c2c else cand

/-- Declarative description of the scan candidate: the first step `s`
whose running total strictly exceeds `outN` yields
`int(H/2) - int(s/2+0.5)`; if no step does, the candidate is 0. -/
def scanCandidateSpec (rows : List (List Char)) (outN : Nat) : Int :=
  match (List.range rows.length).find?
      (fun t => decide (outN < cumulDots rows (t + 1))) with
  | some t => scanCandAt rows.length t
  | none => 0

/-- The start-row candidate as claim C1 words it: the candidate equals
the zig-zag **row** at which the running total first **meets or
exceeds** the message width.  (Stated from the claim, for comparison
with the code's `msgStartRight`.) -/
def msgStartRightClaimC1 (rows : List (List Char)) (outN L : Nat) : Int :=
  let cand :=
    match (List.range rows.length).find?
        (fun t => decide (outN ≤ cumulDots rows (t + 1))) with
    | some t => zigzagRow rows.length t
    | none => 0
  min cand (max 0 (Int.tdiv ((rows.length : Int) - (L : Int) + 1) 2))

/-! ## Message start row, Left alignment (techo.py lines 436-442) -/

/-- The in-place row reversal loop
`for i in range(len(img)): img[i] = img[i][::-1]` (lines 437-438). -/
def reverseRows : List (List Char) → List (List Char)
  | [] => []
  | r :: rs => r.reverse :: reverseRows rs

/-- `msgStart` for Left alignment (lines 439-442):
`msgStart = int(H - lineNum)`, `msgStart2 = int(H/2 - lineNum/2 + 0.5)`
clamped to ≥ 0, and the smaller of the two. -/
def msgStartLeft (H L : Nat) : Int :=
  let m1 : Int := (H : Int) - (L : Int)
  let m2 := Int.tdiv ((H : Int) - (L : Int) + 1) 2
  let m2c := if m2 < 0 then 0 else m2
  if m1 > m2c then m2c else m1

/-! ## Claim C6: the palette -/

/-- C6 (amended): the palette fixed at process start is an ordered
sequence of exactly 9 RGB colors (24-bit, each channel parsing to a
byte), indexed 0 through 8. -/
theorem palette_spec :
    palette.length = 9 ∧
    (palette.all fun p =>
      decide ((hexToRGB p).1 < 256) && decide ((hexToRGB p).2.1 < 256) &&
        decide ((hexToRGB p).2.2 < 256)) = true := by
  decide

/-- C6 counterexample: the palette does not have 10 entries; it has
exactly 9. -/
theorem palette_length_cex : palette.length = 9 ∧ palette.length ≠ 10 := by
  decide

/-! ## Claim C10: the zig-zag scan index stays in bounds -/

/-- C10: for every visible face height `H ≥ 1` and step `s < H`, the
zig-zag row index `int(H/2) + int(s/2+0.5)*(-1)^s` lies within `[0, H)`,
and the candidate `int(H/2) - int(s/2+0.5)` assigned by the scan is
nonnegative. -/
theorem zigzag_inbounds (H s : Nat) (hH : 1 ≤ H) (hs : s < H) :
    0 ≤ zigzagRow H s ∧ zigzagRow H s < (H : Int) ∧ 0 ≤ scanCandAt H s := by
  unfold zigzagRow scanCandAt
  rcases Nat.even_or_odd s with he | ho
  · rw [he.neg_one_pow]
    obtain ⟨k, hk⟩ := he
    subst hk
    refine ⟨by omega, by omega, by omega⟩
  · rw [ho.neg_one_pow]
    obtain ⟨k, hk⟩ := ho
    subst hk
    refine ⟨by omega, by omega, by omega⟩

/-- C10 witness: at the actual face height 28 and the last scan step 27,
the zig-zag row is in bounds and the candidate nonnegative. -/
theorem zigzag_inbounds_witness :
    ((1 : Nat) ≤ 28 ∧ 27 < 28) ∧
      (0 ≤ zigzagRow 28 27 ∧ zigzagRow 28 27 < (28 : Int) ∧
        0 ≤ scanCandAt 28 27) :=
  ⟨by decide, zigzag_inbounds 28 27 (by decide) (by decide)⟩

/-! ## Claim C3: windowing bounds -/

/-- C3 (amended): for the program's bitmaps (height 28) and every
message line count `L ≥ 1`, the reduced-mode window start is within
`[0, 28]` and `start ≤ end`, and the end is within bounds except at
`L = 25`, where it overshoots to 29. -/
theorem faceWindow_bounds (L : Nat) (hL : 1 ≤ L) :
    0 ≤ faceYStart 28 L ∧ faceYStart 28 L ≤ 28 ∧
    faceYStart 28 L ≤ faceYEnd 28 L ∧
    (L ≠ 25 → faceYEnd 28 L ≤ 28) ∧ (L = 25 → faceYEnd 28 L = 29) := by
  unfold faceYEnd faceYStart
  split_ifs with h1 h2 <;>
    refine ⟨by omega, by omega, by omega, fun hne => by omega, fun he => by omega⟩

/-- C3 counterexample: at height 28 and `L = 25` the computed window end
index is 29, which is outside `[0, 28]`. -/
theorem faceWindow_bounds_cex :
    faceYEnd 28 25 = 29 ∧ ¬ faceYEnd 28 25 ≤ 28 := by decide

/-- C3 witness: at `L = 7` the bounds all hold. -/
theorem faceWindow_bounds_witness :
    ((1 : Nat) ≤ 7) ∧ 0 ≤ faceYStart 28 7 ∧ faceYEnd 28 7 ≤ 28 :=
  ⟨by decide, (faceWindow_bounds 7 (by decide)).1,
    (faceWindow_bounds 7 (by decide)).2.2.2.1 (by decide)⟩

/-! ## Claim C4: Left alignment -/

/-- C4 (amended): in Left alignment every face row is reversed
character-by-character, and the message start row equals
`min (H - L) (max 0 (trunc (H/2 - L/2 + 0.5)))` — with **no** clamping
of `H - L` to zero, so the start row is negative whenever `L > H`.
When `L ≤ H` the start row is nonnegative. -/
theorem leftAlign_spec (rows : List (List Char)) (L : Nat) :
    reverseRows rows = rows.map List.reverse ∧
    msgStartLeft rows.length L =
      min ((rows.length : Int) - (L : Int))
        (max 0 (Int.tdiv ((rows.length : Int) - (L : Int) + 1) 2)) ∧
    ((L : Int) ≤ (rows.length : Int) → 0 ≤ msgStartLeft rows.length L) := by
  have hrev : ∀ rs : List (List Char), reverseRows rs = rs.map List.reverse := by
    intro rs
    induction rs with
    | nil => rfl
    | cons r t ih => simp [reverseRows, ih]
  have hmin : msgStartLeft rows.length L =
      min ((rows.length : Int) - (L : Int))
        (max 0 (Int.tdiv ((rows.length : Int) - (L : Int) + 1) 2)) := by
    unfold msgStartLeft
    simp only [min_def, max_def]
    split_ifs <;> omega
  refine ⟨hrev rows, hmin, fun hLH => ?_⟩
  rw [hmin]
  exact le_min (by omega) (le_max_left 0 _)

/-- C4 counterexample: on the whole 28-row face with a 30-line message,
the Left-alignment start row is `-2` (negative, not clamped), while the
claim's formula `min (max 0 (H - L)) (clamped center)` gives 0. -/
theorem msgStartLeft_negative_cex :
    msgStartLeft 28 30 = -2 ∧ msgStartLeft 28 30 < 0 ∧
    min (max 0 ((28 : Int) - 30))
      (max 0 (Int.tdiv ((28 : Int) - 30 + 1) 2)) = 0 := by decide

/-- C4 witness: with the real face 0 and a 3-line message the start row
is nonnegative. -/
theorem leftAlign_spec_witness :
    ((3 : Int) ≤ ((faceRows 0).length : Int)) ∧
      0 ≤ msgStartLeft (faceRows 0).length 3 :=
  ⟨by decide, (leftAlign_spec (faceRows 0) 3).2.2 (by decide)⟩

/-! ## Claim C5: Right-alignment margin and narrow-screen warning -/

/-- C5: in Right alignment the program warns (one line on the diagnostic
stream) and terminates with no other output exactly when
`width - rowLen*2 ≤ 0`; when the margin is positive every face row is
prefixed with `margin/2` (integer division) background dots. -/
theorem rightMargin_spec (w : Int) (rows : List (List Char)) :
    (rightMargin w rows = Except.error narrowWarning ↔
      w - (rowLen rows : Int) * 2 ≤ 0) ∧
    (0 < w - (rowLen rows : Int) * 2 →
      rightMargin w rows = Except.ok (rows.map (fun r =>
        List.replicate ((w - (rowLen rows : Int) * 2).toNat / 2) '.' ++ r))) := by
  unfold rightMargin
  dsimp only
  split_ifs with h
  · exact ⟨⟨fun hcon => by simp at hcon, fun hle => absurd h (by omega)⟩,
      fun _ => rfl⟩
  · exact ⟨⟨fun _ => by omega, fun _ => rfl⟩, fun hpos => absurd hpos (by omega)⟩

/-- C5 witness: at terminal width 51 with face 0 (row width 25) the
margin is 1 > 0, and every row is prefixed with `1/2 = 0` dots. -/
theorem rightMargin_spec_witness :
    (0 < (51 : Int) - (rowLen (faceRows 0) : Int) * 2) ∧
      rightMargin 51 (faceRows 0) = Except.ok ((faceRows 0).map (fun r =>
        List.replicate (((51 : Int) - (rowLen (faceRows 0) : Int) * 2).toNat / 2)
          '.' ++ r)) :=
  ⟨by decide, (rightMargin_spec 51 (faceRows 0)).2 (by decide)⟩

/-! ## Claim C8: countChar -/

lemma countChar_foldl (s : List Char) :
    ∀ n : Nat, s.foldl (fun N c => N + if isFWA c then 2 else 1) n =
      n + (s.map (fun c => if isFWA c then 2 else 1)).sum := by
  induction s with
  | nil => intro n; simp
  | cons a t ih => intro n; simp [List.foldl_cons, ih]; omega

lemma eaw_ascii (c : Char) (h : c.toNat < 128) :
    east_asian_width c = EAW.Na ∨ east_asian_width c = EAW.N := by
  unfold east_asian_width
  dsimp only
  rw [if_pos h]
  split_ifs
  · exact Or.inl rfl
  · exact Or.inr rfl

lemma isFWA_ascii (c : Char) (h : c.toNat < 128) : isFWA c = false := by
  rcases eaw_ascii c h with h2 | h2 <;> simp [isFWA, h2]

lemma isFWA_of_FW (c : Char)
    (h : east_asian_width c = EAW.F ∨ east_asian_width c = EAW.W) :
    isFWA c = true := by
  rcases h with h | h <;> simp [isFWA, h]

lemma sum_map_const_on (s : List Char) (f : Char → Nat) (k : Nat)
    (h : ∀ c ∈ s, f c = k) : (s.map f).sum = k * s.length := by
  induction s with
  | nil => simp
  | cons a t ih =>
    have ha := h a (List.mem_cons_self a t)
    have ht := ih (fun c hc => h c (List.mem_cons_of_mem a hc))
    simp [ha, ht, List.length_cons, Nat.mul_succ]
    omega

/-- C8: `countChar` sums per-character contributions (2 for East-Asian
F/W/A characters, 1 otherwise); in particular it returns `N` on an
all-ASCII string of length `N` and `2N` on a string of `N`
Fullwidth/Wide characters. -/
theorem countChar_spec (s : List Char) :
    countChar s = (s.map (fun c => if isFWA c then 2 else 1)).sum ∧
    ((∀ c ∈ s, c.toNat < 128) → countChar s = s.length) ∧
    ((∀ c ∈ s, east_asian_width c = EAW.F ∨ east_asian_width c = EAW.W) →
      countChar s = 2 * s.length) := by
  have hfold : countChar s = (s.map (fun c => if isFWA c then 2 else 1)).sum := by
    simpa using countChar_foldl s 0
  refine ⟨hfold, fun h => ?_, fun h => ?_⟩
  · rw [hfold,
      sum_map_const_on s _ 1 (fun c hc => by simp [isFWA_ascii c (h c hc)])]
    exact Nat.one_mul _
  · rw [hfold,
      sum_map_const_on s _ 2 (fun c hc => by simp [isFWA_of_FW c (h c hc)])]

/-- C8 witness: on the ASCII string `hi` the result is its length 2, and
on two Wide characters the result is twice the length. -/
theorem countChar_spec_witness :
    countChar ("hi".data) = ("hi".data).length ∧
      countChar ("ああ".data) = 2 * ("ああ".data).length :=
  ⟨(countChar_spec "hi".data).2.1 (by decide),
    (countChar_spec "ああ".data).2.2 (by decide)⟩

/-! ## Claim C2: the reduced-mode window -/

lemma faceRows_length (i : Nat) (hi : i < 6) : (faceRows i).length = 28 := by
  unfold faceRows
  rw [List.length_map]
  interval_cases i <;> rfl

/-- C2 (amended): for every face of the program (height 28) and message
line count `L ≥ 1`, reduced mode shows: exactly 6 rows, namely the slice
`[13, 19)`, when `L < 6`; exactly `L + 1` rows starting at row
`15 - L/2` when `6 ≤ L` and `L + 2 < 28`, **except** at `L = 25` where
the slice is clipped by the bitmap edge to 25 rows; and the whole bitmap
when `L + 2 ≥ 28`. -/
theorem windowRows_window_spec (i : Nat) (hi : i < 6) (L : Nat) (hL : 1 ≤ L) :
    (L < 6 → windowRows (faceRows i) L = pySlice (faceRows i) 13 19 ∧
      (windowRows (faceRows i) L).length = 6) ∧
    (6 ≤ L → L + 2 < 28 → L ≠ 25 →
      windowRows (faceRows i) L = ((faceRows i).drop (15 - L / 2)).take (L + 1) ∧
      (windowRows (faceRows i) L).length = L + 1) ∧
    (L = 25 → (windowRows (faceRows i) L).length = 25) ∧
    (28 ≤ L + 2 → windowRows (faceRows i) L = faceRows i) := by
  have hlen := faceRows_length i hi
  unfold windowRows pySlice
  rw [hlen]
  refine ⟨fun h1 => ?_, fun h6 h2 h25 => ?_, fun h25 => ?_, fun h3 => ?_⟩
  · have hys : faceYStart 28 L = 13 := by unfold faceYStart; rw [if_pos h1]; rfl
    have hye : faceYEnd 28 L = 19 := by
      unfold faceYEnd; rw [if_pos h1, hys]; rfl
    rw [hys, hye]
    refine ⟨rfl, ?_⟩
    rw [List.length_drop, List.length_take, hlen]
    rfl
  · have ha : (faceYStart 28 L).toNat = 15 - L / 2 := by
      unfold faceYStart
      rw [if_neg (by omega), if_pos h2]
      omega
    have hb : (faceYEnd 28 L).toNat = 15 - L / 2 + (L + 1) := by
      unfold faceYEnd faceYStart
      rw [if_neg (by omega), if_pos h2, if_neg (by omega), if_pos h2]
      omega
    rw [ha, hb, List.drop_take]
    have hdiff : 15 - L / 2 + (L + 1) - (15 - L / 2) = L + 1 := by omega
    rw [hdiff]
    refine ⟨rfl, ?_⟩
    rw [List.length_take, List.length_drop, hlen]
    omega
  · subst h25
    rw [List.length_drop, List.length_take, hlen]
    rfl
  · have h1 : ¬ L < 6 := by omega
    have h2 : ¬ L + 2 < 28 := by omega
    unfold faceYEnd faceYStart
    rw [if_neg h1, if_neg h2, if_neg h1, if_neg h2]
    show ((faceRows i).take ((28 : Int)).toNat).drop ((0 : Int)).toNat = faceRows i
    rw [show ((28 : Int)).toNat = 28 from rfl, show ((0 : Int)).toNat = 0 from rfl]
    rw [List.drop_zero, ← hlen, List.take_length]

/-- C2 counterexample: at `L = 25` (which satisfies `6 ≤ L` and
`L + 2 < 28`) the window of face 0 has 25 rows, not `L + 1 = 26`. -/
theorem windowRows_L25_cex :
    (windowRows (faceRows 0) 25).length = 25 ∧
      (windowRows (faceRows 0) 25).length ≠ 25 + 1 := by
  refine ⟨?_, ?_⟩ <;> decide

/-- C2 witness: at `L = 3 < 6` the window of face 0 has exactly 6 rows. -/
theorem windowRows_window_spec_witness :
    (windowRows (faceRows 0) 3).length = 6 :=
  ((windowRows_window_spec 0 (by decide) 3 (by decide)).1 (by decide)).2

/-! ## Claim C1: the Right-alignment start-row scan -/

lemma cumulDots_zero (rows : List (List Char)) : cumulDots rows 0 = 0 := by
  simp [cumulDots]

lemma cumulDots_succ (rows : List (List Char)) (k : Nat) :
    cumulDots rows (k + 1) = cumulDots rows k + rowContrib rows k := by
  simp [cumulDots, List.range_succ]

lemma scanGo_find (rows : List (List Char)) (outN : Nat) :
    ∀ (k s : Nat),
      scanGo rows outN k s (cumulDots rows s) =
        match (List.range' s k).find?
            (fun t => decide (outN < cumulDots rows (t + 1))) with
        | some t => scanCandAt rows.length t
        | none => 0 := by
  intro k
  induction k with
  | zero => intro s; simp [scanGo]
  | succ k ih =>
    intro s
    rw [List.range'_succ]
    by_cases hp : outN < cumulDots rows (s + 1)
    · simp only [scanGo]
      rw [← cumulDots_succ, if_pos hp]
      simp [List.find?_cons, hp]
    · simp only [scanGo]
      rw [← cumulDots_succ, if_neg hp]
      have := ih (s + 1)
      simp only [List.find?_cons]
      rw [show (decide (outN < cumulDots rows (s + 1))) = false by simp [hp]]
      exact this

/-- C1 (amended): in Right alignment the start row equals the minimum of
(a) the scan candidate — `int(H/2) - int(s/2+0.5)` for the first step
`s` at which the running total of doubled leading background columns
**strictly exceeds** the message display width (0 when no step does) —
and (b) the clamped vertically-centered candidate
`max 0 (trunc (H/2 - L/2 + 0.5))`.  (The claim's "meets or
exceeds" and its identification of the candidate with the scanned row
itself both fail on the code, see the counterexample.) -/
theorem msgStartRight_characterization (rows : List (List Char)) (outN L : Nat) :
    msgStartRight rows outN L =
      min (scanCandidateSpec rows outN)
        (max 0 (Int.tdiv ((rows.length : Int) - (L : Int) + 1) 2)) := by
  unfold msgStartRight scanCandidateSpec
  dsimp only
  have h0 := scanGo_find rows outN rows.length 0
  rw [cumulDots_zero] at h0
  rw [h0, ← List.range_eq_range']
  simp only [min_def, max_def]
  split_ifs <;> omega

/-- C1 counterexample: on face 0 (width 51 terminal, so no margin dots)
with message `hello` (display width 6 including the trailing newline,
one line), the code's start row is 13, while the claim's reading — the
candidate is the zig-zag **row** at which the running total first
**meets or exceeds** the width — gives 14: at step 0 the total is
exactly 6 (meets, does not exceed), so the code continues to step 1. -/
theorem msgStartRight_claim_cex :
    msgStartRight (faceRows 0) 6 1 = 13 ∧
      msgStartRightClaimC1 (faceRows 0) 6 1 = 14 := by
  refine ⟨?_, ?_⟩ <;> decide

/-! ## Sanitizer lemmas (claims C7 and C9) -/

lemma pySplitlinesAux_no_break :
    ∀ (l acc : List Char), (∀ c ∈ acc, isPyLineBreak c = false) →
      ∀ p ∈ pySplitlinesAux l acc, ∀ c ∈ p, isPyLineBreak c = false := by
  intro l acc
  induction l, acc using pySplitlinesAux.induct with
  | case1 acc hacc =>
    intro h p hp
    rw [pySplitlinesAux.eq_1, if_pos hacc] at hp
    simp at hp
  | case2 acc hacc =>
    intro h p hp
    rw [pySplitlinesAux.eq_1, if_neg hacc] at hp
    simp at hp
    subst hp
    intro c hc
    exact h c (List.mem_reverse.mp hc)
  | case3 cs acc ih =>
    intro h p hp
    rw [pySplitlinesAux.eq_2] at hp
    rcases List.mem_cons.mp hp with rfl | hp2
    · intro c hc; exact h c (List.mem_reverse.mp hc)
    · exact ih (by simp) p hp2
  | case4 cs acc hne ih =>
    intro h p hp
    rw [pySplitlinesAux.eq_3 acc cs hne] at hp
    rcases List.mem_cons.mp hp with rfl | hp2
    · intro c hc; exact h c (List.mem_reverse.mp hc)
    · exact ih (by simp) p hp2
  | case5 c cs acc hne1 hne2 hbrk ih =>
    intro h p hp
    rw [pySplitlinesAux.eq_4 acc c cs hne1 hne2, if_pos hbrk] at hp
    rcases List.mem_cons.mp hp with rfl | hp2
    · intro c2 hc; exact h c2 (List.mem_reverse.mp hc)
    · exact ih (by simp) p hp2
  | case6 c cs acc hne1 hne2 hbrk ih =>
    intro h p hp
    rw [pySplitlinesAux.eq_4 acc c cs hne1 hne2, if_neg hbrk] at hp
    refine ih ?_ p hp
    intro c2 hc2
    rcases List.mem_cons.mp hc2 with rfl | hc3
    · simpa using hbrk
    · exact h c2 hc3

lemma pySplitlines_no_break (l : List Char) :
    ∀ p ∈ pySplitlines l, ∀ c ∈ p, isPyLineBreak c = false :=
  pySplitlinesAux_no_break l [] (by simp)

lemma stripCtrl_mem (p : List Char) (c : Char) (hc : c ∈ stripCtrl p) :
    c ∈ p ∧ 0x1F < c.toNat ∧ c.toNat ≠ 0x7F := by
  have h1 := List.mem_filter.mp hc
  refine ⟨h1.1, ?_, ?_⟩ <;> (have h2 := h1.2; simp at h2; omega)

lemma stripCtrl_eq_self (p : List Char)
    (h : ∀ c ∈ p, 0x1F < c.toNat ∧ c.toNat ≠ 0x7F) : stripCtrl p = p := by
  apply List.filter_eq_self.mpr
  intro a ha
  have h2 := h a ha
  simp
  omega

lemma mem_msgSanitize (l : List Char) (c : Char) (hc : c ∈ msgSanitize l) :
    c = '\n' ∨ (isPyLineBreak c = false ∧ 0x1F < c.toNat ∧ c.toNat ≠ 0x7F) := by
  unfold msgSanitize at hc
  rw [List.mem_flatten] at hc
  obtain ⟨x, hx, hcx⟩ := hc
  rw [List.mem_map] at hx
  obtain ⟨p, hp, rfl⟩ := hx
  rcases List.mem_append.mp hcx with h | h
  · right
    obtain ⟨hcp, hgt, hne⟩ := stripCtrl_mem p c h
    exact ⟨pySplitlines_no_break _ p hp c hcp, hgt, hne⟩
  · left; simpa using h

lemma replaceTab_eq_self (x : List Char) (h : ∀ c ∈ x, c ≠ '\t') :
    replaceTab x = x := by
  unfold replaceTab
  calc x.map (fun c => if c = '\t' then ' ' else c)
      = x.map id := List.map_congr_left (fun a ha => by simp [if_neg (h a ha)])
    _ = x := List.map_id x

lemma replaceTab_idem (l : List Char) :
    replaceTab (replaceTab l) = replaceTab l := by
  apply replaceTab_eq_self
  intro c hc
  unfold replaceTab at hc
  rw [List.mem_map] at hc
  obtain ⟨a, ha, hEq⟩ := hc
  subst hEq
  split_ifs with h2
  · decide
  · exact h2

lemma flatten_map_nl :
    ∀ qs : List (List Char), qs ≠ [] →
      (qs.map (fun q => q ++ ['\n'])).flatten = joinNl qs ++ ['\n'] := by
  intro qs
  induction qs with
  | nil => intro h; exact absurd rfl h
  | cons q t ih =>
    intro _
    cases t with
    | nil => simp [joinNl]
    | cons q2 t2 =>
      rw [List.map_cons, List.flatten_cons, ih (by simp)]
      rw [show joinNl (q :: q2 :: t2) = q ++ '\n' :: joinNl (q2 :: t2) from rfl]
      simp [List.append_assoc]

lemma count_nl_flatten :
    ∀ ps : List (List Char),
      ((ps.map (fun p => stripCtrl p ++ ['\n'])).flatten).count '\n' = ps.length := by
  intro ps
  induction ps with
  | nil => rfl
  | cons p t ih =>
    rw [List.map_cons, List.flatten_cons, List.count_append, List.count_append, ih]
    have hnot : ('\n') ∉ stripCtrl p := by
      intro hmem
      have := (stripCtrl_mem p '\n' hmem).2.1
      revert this
      decide
    rw [List.count_eq_zero.mpr hnot]
    simp
    omega

lemma getLast?_flatten_nl :
    ∀ ps : List (List Char), ps ≠ [] →
      ((ps.map (fun p => stripCtrl p ++ ['\n'])).flatten).getLast? = some '\n' := by
  intro ps
  induction ps with
  | nil => intro h; exact absurd rfl h
  | cons p t ih =>
    intro _
    cases t with
    | nil => simp
    | cons p2 t2 =>
      rw [List.map_cons, List.flatten_cons, List.getLast?_append, ih (by simp)]
      rfl

/-! ## Claim C7: the Sanitizer -/

/-- C7 (amended): the Sanitizer replaces every tab by a space, removes
every C0 control and DEL from within every line (so the only control
character of the output is LF), preserves interior newlines as
separators (one LF per line of the split text), terminates **every**
line — including the last — with a newline (so the output ends with LF
whenever it is nonempty; the input's trailing newlines are first
stripped, then one LF per line is appended), and always succeeds, with
empty input yielding empty output. -/
theorem msgSanitize_spec (l : List Char) :
    (∀ c ∈ msgSanitize l, c.toNat ≤ 0x1F → c = '\n') ∧
    (∀ c ∈ msgSanitize l, c.toNat ≠ 0x7F ∧ c ≠ '\t') ∧
    (msgSanitize l ≠ [] → (msgSanitize l).getLast? = some '\n') ∧
    (msgSanitize l).count '\n' = (pySplitlines (rstripNl (replaceTab l))).length ∧
    msgSanitize (replaceTab l) = msgSanitize l ∧
    msgSanitize ([] : List Char) = [] := by
  refine ⟨?_, ?_, ?_, ?_, ?_, rfl⟩
  · intro c hc hle
    rcases mem_msgSanitize l c hc with h | ⟨_, hgt, _⟩
    · exact h
    · exact absurd hle (by omega)
  · intro c hc
    rcases mem_msgSanitize l c hc with h | ⟨_, hgt, hne⟩
    · subst h; exact ⟨by decide, by decide⟩
    · refine ⟨hne, fun ht => ?_⟩
      rw [ht] at hgt
      exact absurd hgt (by decide)
  · intro hne
    unfold msgSanitize at hne ⊢
    cases hps : pySplitlines (rstripNl (replaceTab l)) with
    | nil => rw [hps] at hne; simp at hne
    | cons p t => exact getLast?_flatten_nl (p :: t) (by simp)
  · unfold msgSanitize
    exact count_nl_flatten _
  · unfold msgSanitize
    rw [replaceTab_idem]

/-- C7 counterexample: the output's trailing newline is *not* removed:
on input `a` followed by a newline, the Sanitizer returns the very same
string (the stripped newline is re-appended), not `a`. -/
theorem msgSanitize_trailing_newline_cex :
    msgSanitize ("a\n".data) = "a\n".data ∧ msgSanitize ("a\n".data) ≠ "a".data := by
  refine ⟨?_, ?_⟩ <;> decide

/-- C7 witness: on input `ab` the output is nonempty and ends with a
newline. -/
theorem msgSanitize_spec_witness :
    msgSanitize ("ab".data) ≠ [] ∧ (msgSanitize ("ab".data)).getLast? = some '\n' :=
  ⟨by decide, (msgSanitize_spec "ab".data).2.2.1 (by decide)⟩

/-! ## Claim C9: idempotence of the Sanitizer -/

lemma pySplitlinesAux_eq_splitNl :
    ∀ (l acc : List Char), (∀ c ∈ l, isPyLineBreak c = true → c = '\n') →
      pySplitlinesAux l acc = splitNlAux l acc := by
  intro l acc
  induction l, acc using pySplitlinesAux.induct with
  | case1 acc hacc => intro h; rfl
  | case2 acc hacc => intro h; rfl
  | case3 cs acc ih =>
    intro h
    exact absurd (h '\r' (by simp) (by decide)) (by decide)
  | case4 cs acc hne ih =>
    intro h
    exact absurd (h '\r' (by simp) (by decide)) (by decide)
  | case5 c cs acc hne1 hne2 hbrk ih =>
    intro h
    have hcn : c = '\n' := h c (by simp) hbrk
    subst hcn
    rw [pySplitlinesAux.eq_4 acc _ _ hne1 hne2, if_pos hbrk]
    have hs : splitNlAux ('\n' :: cs) acc = acc.reverse :: splitNlAux cs [] := by
      simp [splitNlAux]
    rw [hs, ih (fun c2 hc2 hb => h c2 (List.mem_cons_of_mem _ hc2) hb)]
  | case6 c cs acc hne1 hne2 hbrk ih =>
    intro h
    have hcn : c ≠ '\n' := by
      intro hEq
      subst hEq
      exact hbrk (by decide)
    rw [pySplitlinesAux.eq_4 acc _ _ hne1 hne2, if_neg hbrk]
    have hs : splitNlAux (c :: cs) acc = splitNlAux cs (c :: acc) := by
      simp [splitNlAux, hcn]
    rw [hs, ih (fun c2 hc2 hb => h c2 (List.mem_cons_of_mem _ hc2) hb)]

lemma splitNlAux_append :
    ∀ (q r acc : List Char), (∀ c ∈ q, c ≠ '\n') →
      splitNlAux (q ++ r) acc = splitNlAux r (q.reverse ++ acc) := by
  intro q
  induction q with
  | nil => intro r acc h; simp
  | cons c q ih =>
    intro r acc h
    have hc : c ≠ '\n' := h c (List.mem_cons_self c q)
    rw [List.cons_append]
    have hs : splitNlAux (c :: (q ++ r)) acc = splitNlAux (q ++ r) (c :: acc) := by
      simp [splitNlAux, hc]
    rw [hs, ih r (c :: acc) (fun c2 hc2 => h c2 (List.mem_cons_of_mem _ hc2))]
    simp [List.reverse_cons, List.append_assoc]

lemma splitNlAux_joinNl :
    ∀ qs : List (List Char), qs ≠ [] → qs.getLast? ≠ some [] →
      (∀ q ∈ qs, ∀ c ∈ q, c ≠ '\n') →
      splitNlAux (joinNl qs) [] = qs := by
  intro qs
  induction qs with
  | nil => intro h _ _; exact absurd rfl h
  | cons q t ih =>
    intro _ hlast hq
    cases t with
    | nil =>
      have hq0 : q ≠ [] := by
        intro hq0
        rw [hq0] at hlast
        simp at hlast
      have h2 : splitNlAux q [] = splitNlAux [] q.reverse := by
        have h3 := splitNlAux_append q [] [] (hq q (by simp))
        simpa using h3
      rw [show joinNl [q] = q from rfl, h2]
      simp [splitNlAux, hq0]
    | cons q2 t2 =>
      rw [show joinNl (q :: q2 :: t2) = q ++ '\n' :: joinNl (q2 :: t2) from rfl]
      rw [splitNlAux_append q ('\n' :: joinNl (q2 :: t2)) [] (hq q (by simp))]
      have hs : splitNlAux ('\n' :: joinNl (q2 :: t2)) (q.reverse ++ []) =
          (q.reverse ++ []).reverse :: splitNlAux (joinNl (q2 :: t2)) [] := by
        simp [splitNlAux]
      rw [hs]
      rw [List.getLast?_cons_cons] at hlast
      rw [ih (by simp) hlast (fun q3 h3 => hq q3 (List.mem_cons_of_mem _ h3))]
      simp

lemma joinNl_getLast? :
    ∀ (qs : List (List Char)) (q0 : List Char), qs.getLast? = some q0 → q0 ≠ [] →
      (joinNl qs).getLast? = q0.getLast? := by
  intro qs
  induction qs with
  | nil => intro q0 h _; simp at h
  | cons q t ih =>
    intro q0 hlast hq0
    cases t with
    | nil =>
      simp at hlast
      subst hlast
      rfl
    | cons q2 t2 =>
      rw [List.getLast?_cons_cons] at hlast
      have hih := ih q0 hlast hq0
      rw [show joinNl (q :: q2 :: t2) = q ++ '\n' :: joinNl (q2 :: t2) from rfl]
      rw [List.getLast?_append]
      obtain ⟨c0, hc0⟩ : ∃ c, q0.getLast? = some c :=
        Option.isSome_iff_exists.mp (List.getLast?_isSome.mpr hq0)
      have hne2 : joinNl (q2 :: t2) ≠ [] := by
        intro hcon
        rw [hcon] at hih
        rw [hc0] at hih
        simp at hih
      obtain ⟨d, ds, hds⟩ : ∃ d ds, joinNl (q2 :: t2) = d :: ds := by
        cases hx : joinNl (q2 :: t2) with
        | nil => exact absurd hx hne2
        | cons d ds => exact ⟨d, ds, rfl⟩
      rw [hds, List.getLast?_cons_cons, ← hds, hih, hc0]
      rfl

lemma mem_joinNl :
    ∀ (qs : List (List Char)) (c : Char), c ∈ joinNl qs →
      c = '\n' ∨ ∃ q ∈ qs, c ∈ q := by
  intro qs
  induction qs with
  | nil => intro c hc; simp [joinNl] at hc
  | cons q t ih =>
    intro c hc
    cases t with
    | nil => exact Or.inr ⟨q, by simp, hc⟩
    | cons q2 t2 =>
      rw [show joinNl (q :: q2 :: t2) = q ++ '\n' :: joinNl (q2 :: t2) from rfl] at hc
      rcases List.mem_append.mp hc with h | h
      · exact Or.inr ⟨q, by simp, h⟩
      · rcases List.mem_cons.mp h with rfl | h2
        · exact Or.inl rfl
        · rcases ih c h2 with h3 | ⟨q3, hq3, hcq3⟩
          · exact Or.inl h3
          · exact Or.inr ⟨q3, List.mem_cons_of_mem _ hq3, hcq3⟩

lemma rstripNl_append_nl (x : List Char)
    (hx : ∀ c, x.getLast? = some c → c ≠ '\n') :
    rstripNl (x ++ ['\n']) = x := by
  unfold rstripNl
  rw [List.reverse_append]
  rw [show (['\n'] : List Char).reverse = ['\n'] from rfl]
  rw [List.singleton_append, List.dropWhile_cons, if_pos (by simp)]
  have hdrop : x.reverse.dropWhile (fun c => c = '\n') = x.reverse := by
    cases hxr : x.reverse with
    | nil => rfl
    | cons a t =>
      rw [List.dropWhile_cons, if_neg ?_]
      have ha : x.getLast? = some a := by
        rw [List.getLast?_eq_head?_reverse, hxr]
        rfl
      simp [hx a ha]
  rw [hdrop, List.reverse_reverse]

/-- C9 (amended): the Sanitizer is idempotent on every input whose last
line, after tab replacement, trailing-newline stripping and per-line
control stripping, is still nonempty — in particular on every text whose
final line contains a printable character, and on empty input.  (It is
**not** idempotent in general: when the final line vanishes — e.g. the
input consists of a lone carriage return, which Python `splitlines`
treats as a line break — the first pass emits a newline that the second
pass strips; see the counterexample.) -/
theorem msgSanitize_idem (l : List Char)
    (hlast : pySplitlines (rstripNl (replaceTab l)) = [] ∨
      stripCtrl ((pySplitlines (rstripNl (replaceTab l))).getLastD []) ≠ []) :
    msgSanitize (msgSanitize l) = msgSanitize l := by
  rcases hlast with hemp | hlast
  · have h0 : msgSanitize l = [] := by
      unfold msgSanitize
      rw [hemp]
      rfl
    rw [h0]
    rfl
  · set ps := pySplitlines (rstripNl (replaceTab l)) with hps
    have hpsne : ps ≠ [] := by
      intro hcon
      rw [hcon] at hlast
      simp [stripCtrl] at hlast
    set qs := ps.map stripCtrl with hqs
    have hqsne : qs ≠ [] := by simp [hqs, hpsne]
    have ho : msgSanitize l = joinNl qs ++ ['\n'] := by
      unfold msgSanitize
      rw [← hps]
      rw [show ps.map (fun p => stripCtrl p ++ ['\n']) =
            qs.map (fun q => q ++ ['\n']) by rw [hqs, List.map_map]; rfl]
      exact flatten_map_nl qs hqsne
    have hqprops : ∀ q ∈ qs, ∀ c ∈ q,
        isPyLineBreak c = false ∧ 0x1F < c.toNat ∧ c.toNat ≠ 0x7F := by
      intro q hq c hc
      rw [hqs] at hq
      rw [List.mem_map] at hq
      obtain ⟨p, hp, rfl⟩ := hq
      obtain ⟨hcp, hgt, hne⟩ := stripCtrl_mem p c hc
      rw [hps] at hp
      exact ⟨pySplitlines_no_break _ p hp c hcp, hgt, hne⟩
    have hqlast : qs.getLast? ≠ some [] := by
      rw [hqs, List.getLast?_map]
      obtain ⟨p0, hp0⟩ : ∃ p0, ps.getLast? = some p0 :=
        Option.isSome_iff_exists.mp (List.getLast?_isSome.mpr hpsne)
      rw [hp0]
      intro hcon
      have hp0d : ps.getLastD [] = p0 := by
        rw [List.getLastD_eq_getLast?, hp0]
        rfl
      rw [hp0d] at hlast
      exact hlast (by simpa using hcon)
    have hlastchar : ∀ c, (joinNl qs).getLast? = some c → c ≠ '\n' := by
      intro c hc
      obtain ⟨q0, hq0⟩ : ∃ q0, qs.getLast? = some q0 :=
        Option.isSome_iff_exists.mp (List.getLast?_isSome.mpr hqsne)
      have hq0ne : q0 ≠ [] := by
        intro hcon
        rw [hcon] at hq0
        exact hqlast hq0
      rw [joinNl_getLast? qs q0 hq0 hq0ne] at hc
      have hcm : c ∈ q0 := List.mem_of_mem_getLast? hc
      have hprop := hqprops q0 (List.mem_of_mem_getLast? hq0) c hcm
      intro hcon
      rw [hcon] at hprop
      exact absurd hprop.1 (by decide)
    rw [ho]
    have hnt : ∀ c ∈ joinNl qs ++ ['\n'], c ≠ '\t' := by
      intro c hc
      rcases List.mem_append.mp hc with h | h
      · rcases mem_joinNl qs c h with rfl | ⟨q, hq, hcq⟩
        · decide
        · have hg := (hqprops q hq c hcq).2
          intro hcon
          rw [hcon] at hg
          exact absurd hg.1 (by decide)
      · simp at h
        subst h
        decide
    have h1 : replaceTab (joinNl qs ++ ['\n']) = joinNl qs ++ ['\n'] :=
      replaceTab_eq_self _ hnt
    have h2 : rstripNl (joinNl qs ++ ['\n']) = joinNl qs :=
      rstripNl_append_nl _ hlastchar
    have hnlfree : ∀ q ∈ qs, ∀ c ∈ q, c ≠ '\n' := by
      intro q hq c hc hcon
      have hb := (hqprops q hq c hc).1
      rw [hcon] at hb
      exact absurd hb (by decide)
    have hbr : ∀ c ∈ joinNl qs, isPyLineBreak c = true → c = '\n' := by
      intro c hc hb
      rcases mem_joinNl qs c hc with h | ⟨q, hq, hcq⟩
      · exact h
      · rw [(hqprops q hq c hcq).1] at hb
        exact absurd hb (by simp)
    have h3 : pySplitlines (joinNl qs) = qs := by
      unfold pySplitlines
      rw [pySplitlinesAux_eq_splitNl (joinNl qs) [] hbr]
      exact splitNlAux_joinNl qs hqsne hqlast hnlfree
    have h5 : qs.map (fun p => stripCtrl p ++ ['\n']) =
        qs.map (fun q => q ++ ['\n']) := by
      apply List.map_congr_left
      intro q hq
      rw [stripCtrl_eq_self q (fun c hc => (hqprops q hq c hc).2)]
    show msgSanitize (joinNl qs ++ ['\n']) = joinNl qs ++ ['\n']
    unfold msgSanitize
    rw [h1, h2, h3, h5]
    exact flatten_map_nl qs hqsne

/-- C9 counterexample: the Sanitizer is not idempotent.  On the input
consisting of a single carriage return, the first pass produces a lone
newline (CR is a Python line boundary, yielding one empty line, to which
a newline is appended), and the second pass produces the empty string. -/
theorem msgSanitize_idem_cex :
    msgSanitize ("\r".data) = "\n".data ∧
      msgSanitize (msgSanitize ("\r".data)) = [] ∧
      msgSanitize (msgSanitize ("\r".data)) ≠ msgSanitize ("\r".data) := by
  refine ⟨?_, ?_, ?_⟩ <;> decide

/-- C9 witness: on the two-line printable input `ab` newline `cd`,
re-applying the Sanitizer to its output is a no-op. -/
theorem msgSanitize_idem_witness :
    msgSanitize (msgSanitize ("ab\ncd".data)) = msgSanitize ("ab\ncd".data) :=
  msgSanitize_idem "ab\ncd".data (Or.inr (by decide))

end Techo
